import Mathlib

/-!
Shallow embedding of the client-side protocol layer of the automythic-ai
marketplace front end: the binary account codec, program-derived address
derivation, purchase-instruction construction, the purchase workflow of the
shop page, and the network-identity verifier.  Each definition mirrors one
function of the TypeScript/JavaScript source; byte buffers are lists of
naturals below 256 and the Node.js Buffer reading primitives are modelled
with their documented bounds behaviour (fixed-width reads throw out of
range, slice clamps).
-/

namespace Automythic

/-- Byte buffers are lists of naturals; writers only emit values below 256. -/
abbrev Bytes := List Nat

/-- Reading n bytes at a given offset of a buffer requires the whole window
to lie inside the buffer, as the Node.js fixed-width Buffer readers do
(they throw ERR_OUT_OF_RANGE otherwise, modelled as none). -/
def readBytes (data : Bytes) (off n : Nat) : Option Bytes :=
  if off + n ≤ data.length then some ((data.drop off).take n) else none

/-- Little-endian interpretation of a byte list as an unsigned integer. -/
def leToNat : Bytes → Nat
  | [] => 0
  | b :: bs => b + 256 * leToNat bs

/-- Buffer.readBigUInt64LE: 8-byte little-endian unsigned read. -/
def readBigUInt64LE (data : Bytes) (off : Nat) : Option Nat :=
  (readBytes data off 8).map leToNat

/-- Buffer.readUInt32LE: 4-byte little-endian unsigned read. -/
def readUInt32LE (data : Bytes) (off : Nat) : Option Nat :=
  (readBytes data off 4).map leToNat

/-- Buffer.readBigInt64LE: 8-byte little-endian two's-complement read. -/
def readBigInt64LE (data : Bytes) (off : Nat) : Option Int :=
  (readBigUInt64LE data off).map
    (fun n : Nat => if n < 2 ^ 63 then (n : Int) else (n : Int) - 2 ^ 64)

/-- Buffer.slice(start, stop): clamps both ends to the buffer, never throws. -/
def bufSlice (data : Bytes) (start stop : Nat) : Bytes :=
  (data.take stop).drop start

/-- Little-endian encoding of an unsigned integer into a fixed number of
bytes, as Buffer.writeBigUInt64LE / writeUInt32LE produce. -/
def natToLE : Nat → Nat → Bytes
  | 0, _ => []
  | w + 1, n => n % 256 :: natToLE w (n / 256)

/-- Buffer.writeBigUInt64LE into a fresh 8-byte buffer. -/
def writeU64LE (n : Nat) : Bytes := natToLE 8 n

/-- Buffer.writeUInt32LE into a fresh 4-byte buffer. -/
def writeU32LE (n : Nat) : Bytes := natToLE 4 n

/-- Two's-complement 8-byte little-endian encoding of a signed integer. -/
def writeI64LE (t : Int) : Bytes := writeU64LE (t % 2 ^ 64).toNat

/-- Shop item record in the form the add-item operator script receives it:
caller-chosen numeric id, price in lamports (the smallest currency unit)
and a metadata URI given as its UTF-8 bytes. -/
structure ItemRecord where
  id : Nat
  price : Nat
  metadataUri : Bytes
deriving DecidableEq, Repr

/-- Instruction discriminator hard-coded for add_item in the operator
script (first 8 bytes of the hash of the instruction name). -/
def addItemDisc : Bytes := [225, 38, 79, 147, 116, 142, 147, 57]

/-- Byte layout produced by addItemWithMetadata: an 8-byte discriminator,
then id (u64 LE), price (u64 LE), the 4-byte metadata length and the
metadata bytes, concatenated in that order. -/
def encodeItemLayout (disc : Bytes) (r : ItemRecord) : Bytes :=
  disc ++ writeU64LE r.id ++ writeU64LE r.price ++
    writeU32LE r.metadataUri.length ++ r.metadataUri

/-- Item as the shop page's fetchItemDetails parses it: the price field is
divided by 1e9 on decode (lamports to SOL), modelled as exact rational
division; the downstream name/description/image defaulting is presentation
logic and out of scope. -/
structure DecodedItem where
  id : Nat
  price : ℚ
  metadataUri : Bytes
deriving DecidableEq, Repr

/-- Account parse of fetchItemDetails: skip the 8-byte discriminator, read
id and price as u64 LE, the metadata length as u32 LE, then slice that many
bytes (Buffer.slice clamps to the end of the buffer).  A thrown
out-of-range read is caught by the enclosing try, yielding none. -/
def decodeItem (data : Bytes) : Option DecodedItem :=
  match readBigUInt64LE data 8 with
  | none => none
  | some itemId =>
    match readBigUInt64LE data 16 with
    | none => none
    | some priceRaw =>
      match readUInt32LE data 24 with
      | none => none
      | some len =>
        some ⟨itemId, (priceRaw : ℚ) / 1000000000, bufSlice data 28 (28 + len)⟩

/-- Single purchase record: item id (u64) and a signed 64-bit timestamp. -/
structure PurchaseRec where
  item_id : Nat
  timestamp : Int
deriving DecidableEq, Repr

/-- Record loop of checkPurchaseHistory: reads n consecutive 16-byte
(item_id, timestamp) records starting at the given offset; a read past the
end of the buffer throws, aborting the whole parse with no partial list. -/
def parsePurchases (data : Bytes) : Nat → Nat → Option (List PurchaseRec)
  | _, 0 => some []
  | off, n + 1 =>
    match readBigUInt64LE data off with
    | none => none
    | some itemId =>
      match readBigInt64LE data (off + 8) with
      | none => none
      | some ts =>
        match parsePurchases data (off + 16) n with
        | none => none
        | some rest => some (⟨itemId, ts⟩ :: rest)

/-- Reading a public key from a buffer slice: the PublicKey constructor
insists on exactly 32 bytes and throws otherwise. -/
def readPubkey (data : Bytes) (off : Nat) : Option Bytes :=
  if (bufSlice data off (off + 32)).length = 32
  then some (bufSlice data off (off + 32)) else none

/-- Purchase-history account payload: the owning user's 32-byte identity
and the ordered list of purchase records. -/
structure PurchaseHistoryRec where
  user : Bytes
  purchases : List PurchaseRec
deriving DecidableEq, Repr

/-- Account parse inside checkPurchaseHistory: skip the 8-byte
discriminator, read the 32-byte user key, the 4-byte record count, then
that many 16-byte records. -/
def decodePurchaseHistory (data : Bytes) : Option PurchaseHistoryRec :=
  match readPubkey data 8 with
  | none => none
  | some user =>
    match readUInt32LE data 40 with
    | none => none
    | some len =>
      match parsePurchases data 44 len with
      | none => none
      | some ps => some ⟨user, ps⟩

/-- Encoder for a single 16-byte purchase record. -/
def encodePurchaseRecord (r : PurchaseRec) : Bytes :=
  writeU64LE r.item_id ++ writeI64LE r.timestamp

/-- Modelled from the spec: the symmetric encoder for the PurchaseHistory
account layout.  The repository only ever decodes this account (it is
written by the on-chain program, whose code is not under src/); the layout
follows the decode in checkPurchaseHistory: 8-byte discriminator, 32-byte
user identity, 4-byte record count, then the 16-byte records in order. -/
def encodePurchaseHistoryLayout (disc : Bytes) (h : PurchaseHistoryRec) : Bytes :=
  disc ++ h.user ++ writeU32LE h.purchases.length ++
    (h.purchases.map encodePurchaseRecord).flatten

/-- Validity bounds for an item record: the fields fit their wire widths. -/
def validItem (r : ItemRecord) : Prop :=
  r.id < 2 ^ 64 ∧ r.price < 2 ^ 64 ∧ r.metadataUri.length < 2 ^ 32

/-- Validity bounds for a purchase record. -/
def validPurchaseRec (r : PurchaseRec) : Prop :=
  r.item_id < 2 ^ 64 ∧ -(2 ^ 63) ≤ r.timestamp ∧ r.timestamp < 2 ^ 63

/-- Validity bounds for a purchase-history record. -/
def validHistory (h : PurchaseHistoryRec) : Prop :=
  h.user.length = 32 ∧ h.purchases.length < 2 ^ 32 ∧
    ∀ r ∈ h.purchases, validPurchaseRec r

/-- Result of the shop page's checkPurchaseHistory (the list it stores as
the wallet's purchase history): no account or a history account owned by a
different user yields the empty list; a parse throw inside the try block is
caught and replaced by the placeholder record (item 1, current time); a
successful parse yields the decoded records. -/
def checkPurchaseHistory (now : Int) (buyer : Bytes) (account : Option Bytes) :
    List PurchaseRec :=
  match account with
  | none => []
  | some data =>
    match readPubkey data 8 with
    | none => [⟨1, now⟩]
    | some user =>
      if user = buyer then
        match readUInt32LE data 40 with
        | none => [⟨1, now⟩]
        | some len =>
          match parsePurchases data 44 len with
          | none => [⟨1, now⟩]
          | some ps => ps
      else []

/-- ASCII bytes of the seed label "shop". -/
def shopSeed : Bytes := [115, 104, 111, 112]

/-- ASCII bytes of the seed label "item". -/
def itemSeed : Bytes := [105, 116, 101, 109]

/-- ASCII bytes of the seed label "history". -/
def historySeed : Bytes := [104, 105, 115, 116, 111, 114, 121]

/-- ASCII bytes of the fixed domain separator "ProgramDerivedAddress". -/
def pdaMarker : Bytes :=
  [80, 114, 111, 103, 114, 97, 109, 68, 101, 114, 105, 118, 101, 100,
   65, 100, 100, 114, 101, 115, 115]

/-- Candidate address for one seed list, as createProgramAddressSync
computes it: the hash of the concatenated seeds, the program id and the
fixed domain separator.  The cryptographic hash is a parameter: it is a
pure function whose internals play no role in the claims. -/
def createProgramAddress (sha256 : Bytes → Bytes)
    (seeds : List Bytes) (programId : Bytes) : Bytes :=
  sha256 (seeds.flatten ++ programId ++ pdaMarker)

/-- Bump search of findProgramAddressSync: bump values are tried from 255
downward to 1, appending the bump as a one-byte seed; the first candidate
off the signer-derivable curve is returned with its bump, and none models
the exhaustion throw.  The on-curve test is likewise a pure parameter. -/
def findProgramAddressGo (sha256 : Bytes → Bytes) (isOnCurve : Bytes → Bool)
    (seeds : List Bytes) (programId : Bytes) : Nat → Option (Bytes × Nat)
  | 0 => none
  | bump + 1 =>
    let cand := createProgramAddress sha256 (seeds ++ [[bump + 1]]) programId
    if isOnCurve cand then
      findProgramAddressGo sha256 isOnCurve seeds programId bump
    else some (cand, bump + 1)

/-- PublicKey.findProgramAddressSync: pure bump search from 255 down. -/
def findProgramAddressSync (sha256 : Bytes → Bytes) (isOnCurve : Bytes → Bool)
    (seeds : List Bytes) (programId : Bytes) : Option (Bytes × Nat) :=
  findProgramAddressGo sha256 isOnCurve seeds programId 255

/-- getShopPDA: derive from the single seed "shop", keeping the address. -/
def getShopPDA (sha256 : Bytes → Bytes) (isOnCurve : Bytes → Bool)
    (programId : Bytes) : Option Bytes :=
  (findProgramAddressSync sha256 isOnCurve [shopSeed] programId).map Prod.fst

/-- getItemPDA: seed label "item" plus the id as 8 little-endian bytes. -/
def getItemPDA (sha256 : Bytes → Bytes) (isOnCurve : Bytes → Bool)
    (programId : Bytes) (id : Nat) : Option Bytes :=
  (findProgramAddressSync sha256 isOnCurve [itemSeed, writeU64LE id]
    programId).map Prod.fst

/-- getHistoryPDA: seed label "history" plus the buyer's identity bytes. -/
def getHistoryPDA (sha256 : Bytes → Bytes) (isOnCurve : Bytes → Bool)
    (programId buyer : Bytes) : Option Bytes :=
  (findProgramAddressSync sha256 isOnCurve [historySeed, buyer]
    programId).map Prod.fst

/-- Account reference of an instruction: address plus its flags. -/
structure AccountMeta where
  pubkey : Bytes
  isSigner : Bool
  isWritable : Bool
deriving DecidableEq, Repr

/-- Instruction: ordered account references, owning program, data bytes. -/
structure Instruction where
  keys : List AccountMeta
  programId : Bytes
  data : Bytes
deriving DecidableEq, Repr

/-- Transaction as its ordered instruction list (the only part of the
web3 Transaction object the verified properties concern). -/
structure Transaction where
  instructions : List Instruction
deriving DecidableEq, Repr

/-- Program id of the system program: the all-zero public key. -/
def systemProgramId : Bytes := List.replicate 32 0

/-- Program id of the compute-budget program (the 32 bytes behind the
base58 constant used by web3.js). -/
def computeBudgetProgramId : Bytes :=
  [3, 6, 70, 111, 229, 33, 23, 50, 255, 236, 173, 186, 114, 195, 155, 231,
   188, 140, 229, 187, 197, 247, 18, 107, 44, 67, 155, 58, 64, 0, 0, 0]

/-- ComputeBudgetProgram.setComputeUnitLimit: variant tag 2 followed by the
unit count as u32 LE, referencing no accounts. -/
def setComputeUnitLimit (units : Nat) : Instruction :=
  ⟨[], computeBudgetProgramId, 2 :: writeU32LE units⟩

/-- Discriminator of the first_purchase opcode, from the IDL table at the
top of the shop page. -/
def firstPurchaseDisc : Bytes := [109, 212, 45, 217, 228, 42, 205, 63]

/-- Discriminator of the subsequent_purchase opcode, from the same table. -/
def subsequentPurchaseDisc : Bytes := [223, 75, 242, 206, 210, 168, 187, 166]

/-- On-chain state the purchase handler reads: the account data found at
the shop, item and history PDAs, and the buyer's lamport balance. -/
structure ChainEnv where
  shopAccount : Option Bytes
  itemAccount : Option Bytes
  historyAccount : Option Bytes
  buyerBalance : Nat

/-- Local pre-submission failures of handlePurchase; each is a thrown
Error caught by the page before anything is signed or sent. -/
inductive PurchaseErr where
  | shopNotInitialized
  | itemNotFound
  | dataOutOfRange
  | insufficientFunds (need got : Nat)
deriving DecidableEq, Repr

/-- Ordered account-reference list of both purchase instructions. -/
def purchaseKeys (buyer shopPDA itemPDA admin historyPDA : Bytes) :
    List AccountMeta :=
  [⟨buyer, true, true⟩, ⟨shopPDA, false, false⟩, ⟨itemPDA, false, false⟩,
   ⟨admin, false, true⟩, ⟨historyPDA, false, true⟩,
   ⟨systemProgramId, false, false⟩]

/-- Purchase handler of the shop page, modelled up to the point where the
assembled transaction is handed to the wallet for signing: it reads the
shop account (admin key at bytes 8 to 40), the item account (price in
lamports at bytes 16 to 24), compares the buyer's lamport balance against
that price, probes bare existence of the history account, and assembles a
transaction holding the compute-budget instruction followed by the
purchase instruction whose 8-byte data is the discriminator selected by
the existence probe.  Every error path aborts before a transaction value
exists. -/
def handlePurchase (programId buyer shopPDA itemPDA historyPDA : Bytes)
    (env : ChainEnv) : Except PurchaseErr Transaction :=
  match env.shopAccount with
  | none => .error .shopNotInitialized
  | some shopData =>
    if (bufSlice shopData 8 40).length = 32 then
      match env.itemAccount with
      | none => .error .itemNotFound
      | some itemData =>
        match readBigUInt64LE itemData 16 with
        | none => .error .dataOutOfRange
        | some itemPrice =>
          if env.buyerBalance < itemPrice then
            .error (.insufficientFunds itemPrice env.buyerBalance)
          else
            .ok ⟨[setComputeUnitLimit 1000000,
              ⟨purchaseKeys buyer shopPDA itemPDA (bufSlice shopData 8 40)
                  historyPDA, programId,
                if env.historyAccount.isSome then subsequentPurchaseDisc
                else firstPurchaseDisc⟩]⟩
    else .error .dataOutOfRange

/-- Transaction assembled by the operator script addItemWithMetadata: the
compute-budget instruction, then the add_item instruction whose data is
the add_item discriminator followed by id, price and the length-prefixed
metadata bytes, over [admin(signer, writable), shop(writable),
item(writable), system(readonly)]. -/
def addItemTransaction (programId adminPk shopPDA itemPDA : Bytes)
    (id price : Nat) (uri : Bytes) : Transaction :=
  ⟨[setComputeUnitLimit 1000000,
    ⟨[⟨adminPk, true, true⟩, ⟨shopPDA, false, true⟩, ⟨itemPDA, false, true⟩,
      ⟨systemProgramId, false, false⟩], programId,
      encodeItemLayout addItemDisc ⟨id, price, uri⟩⟩]⟩

/-- Named network endpoint from the static catalog in lib/config.ts. -/
structure NetworkConfig where
  name : String
  endpoint : String
deriving DecidableEq, Repr

/-- Sonic provider group of the catalog, in declaration order. -/
def SONIC_NETWORKS : List NetworkConfig :=
  [⟨"Sonic Mainnet Beta", "https://api.mainnet-alpha.sonic.game"⟩,
   ⟨"Sonic Testnet", "https://api.testnet.sonic.game"⟩]

/-- Plain Solana provider group of the catalog, in declaration order. -/
def SOLANA_NETWORKS_CONFIG : List NetworkConfig :=
  [⟨"Solana Mainnet Beta", "https://api.mainnet-beta.solana.com"⟩,
   ⟨"Solana Testnet", "https://api.testnet.solana.com"⟩,
   ⟨"Solana Devnet", "https://api.devnet.solana.com"⟩]

/-- Configured target network: NETWORK_PROVIDER is "sonic" and
SOLANA_NETWORK is "testnet", so this is the Sonic testnet entry. -/
def CURRENT_NETWORK : NetworkConfig :=
  ⟨"Sonic Testnet", "https://api.testnet.sonic.game"⟩

/-- Outcome of the network check: indeterminate models the outer catch
(the reference fetch failed and nothing is reported). -/
inductive NetworkCheckResult where
  | indeterminate
  | correct
  | mismatch (detectedName : String)
deriving DecidableEq, Repr

/-- Catalog probe loop of checkNetwork: open a throwaway connection to
each entry in order, compare its genesis hash with the live one, and stop
at the first match; an entry whose connection errors (none) is skipped. -/
def findNetwork (fetchHash : String → Option String) (liveHash : String) :
    List NetworkConfig → Option NetworkConfig
  | [] => none
  | c :: rest =>
    if fetchHash c.endpoint = some liveHash then some c
    else findNetwork fetchHash liveHash rest

/-- Network verifier of NetworkAlert: compare the live genesis hash with
the configured target's; on mismatch probe the Sonic group, then the plain
Solana group, reporting the first matching entry's name, or the name
"Unknown Network" when nothing matches.  The genesis-hash fetch is a
parameter standing for the connection capability. -/
def checkNetwork (fetchHash : String → Option String) (liveHash : String) :
    NetworkCheckResult :=
  match fetchHash CURRENT_NETWORK.endpoint with
  | none => .indeterminate
  | some expected =>
    if liveHash = expected then .correct
    else
      match findNetwork fetchHash liveHash SONIC_NETWORKS with
      | some c => .mismatch c.name
      | none =>
        match findNetwork fetchHash liveHash SOLANA_NETWORKS_CONFIG with
        | some c => .mismatch c.name
        | none => .mismatch "Unknown Network"

theorem natToLE_length (w n : Nat) : (natToLE w n).length = w := by
  induction w generalizing n with
  | zero => rfl
  | succ w ih => simp [natToLE, ih]

theorem leToNat_natToLE (w n : Nat) (h : n < 256 ^ w) :
    leToNat (natToLE w n) = n := by
  induction w generalizing n with
  | zero =>
    simp [natToLE, leToNat]
    omega
  | succ w ih =>
    have hdiv : n / 256 < 256 ^ w := by
      rw [Nat.div_lt_iff_lt_mul (by norm_num)]
      calc n < 256 ^ (w + 1) := h
        _ = 256 ^ w * 256 := by ring
    simp only [natToLE, leToNat, ih (n / 256) hdiv]
    omega

theorem readBytes_exact (pre mid post : Bytes) (off n : Nat)
    (hoff : off = pre.length) (hn : n = mid.length) :
    readBytes (pre ++ (mid ++ post)) off n = some mid := by
  subst hoff hn
  unfold readBytes
  rw [if_pos (by simp)]
  rw [List.drop_append_of_le_length (by simp), List.drop_length, List.nil_append]
  rw [List.take_append_of_le_length (le_refl _), List.take_length]

theorem readBigUInt64LE_exact (pre post : Bytes) (off n : Nat)
    (hoff : off = pre.length) (hn : n < 2 ^ 64) :
    readBigUInt64LE (pre ++ (writeU64LE n ++ post)) off = some n := by
  unfold readBigUInt64LE
  rw [readBytes_exact pre (writeU64LE n) post off 8 hoff
    (by rw [writeU64LE, natToLE_length])]
  simp [writeU64LE, leToNat_natToLE 8 n (by norm_num at hn ⊢; omega)]

theorem readUInt32LE_exact (pre post : Bytes) (off n : Nat)
    (hoff : off = pre.length) (hn : n < 2 ^ 32) :
    readUInt32LE (pre ++ (writeU32LE n ++ post)) off = some n := by
  unfold readUInt32LE
  rw [readBytes_exact pre (writeU32LE n) post off 4 hoff
    (by rw [writeU32LE, natToLE_length])]
  simp [writeU32LE, leToNat_natToLE 4 n (by norm_num at hn ⊢; omega)]

theorem readBigInt64LE_exact (pre post : Bytes) (off : Nat) (t : Int)
    (hoff : off = pre.length) (hlo : -(2 ^ 63) ≤ t) (hhi : t < 2 ^ 63) :
    readBigInt64LE (pre ++ (writeI64LE t ++ post)) off = some t := by
  have hmod : (0:Int) ≤ t % 2 ^ 64 := Int.emod_nonneg t (by norm_num)
  have hmodlt : t % 2 ^ 64 < 2 ^ 64 := Int.emod_lt_of_pos t (by norm_num)
  have hI : writeI64LE t = writeU64LE (t % 2 ^ 64).toNat := rfl
  have key := readBigUInt64LE_exact pre post off (t % 2 ^ 64).toNat hoff (by omega)
  unfold readBigInt64LE
  rw [hI, key]
  simp only [Option.map_some']
  congr 1
  have h1 : ((t % 2 ^ 64).toNat : Int) = t % 2 ^ 64 := Int.toNat_of_nonneg hmod
  by_cases hc : (t % 2 ^ 64).toNat < 2 ^ 63
  · rw [if_pos hc]
    omega
  · rw [if_neg hc]
    omega

@[simp] theorem writeU64LE_length (n : Nat) : (writeU64LE n).length = 8 :=
  natToLE_length 8 n

@[simp] theorem writeU32LE_length (n : Nat) : (writeU32LE n).length = 4 :=
  natToLE_length 4 n

@[simp] theorem writeI64LE_length (t : Int) : (writeI64LE t).length = 8 :=
  natToLE_length 8 _

theorem bufSlice_suffix (pre rest : Bytes) (start stop : Nat)
    (hs : start = pre.length) (hstop : (pre ++ rest).length ≤ stop) :
    bufSlice (pre ++ rest) start stop = rest := by
  subst hs
  unfold bufSlice
  rw [List.take_of_length_le hstop, List.drop_append_of_le_length (le_refl _),
    List.drop_length, List.nil_append]

theorem decodeItem_encodeItemLayout (disc : Bytes) (r : ItemRecord)
    (hd : disc.length = 8) (hv : validItem r) :
    decodeItem (encodeItemLayout disc r) =
      some ⟨r.id, (r.price : ℚ) / 1000000000, r.metadataUri⟩ := by
  obtain ⟨h1, h2, h3⟩ := hv
  have hE : encodeItemLayout disc r =
      disc ++ (writeU64LE r.id ++ (writeU64LE r.price ++
        (writeU32LE r.metadataUri.length ++ r.metadataUri))) := by
    simp [encodeItemLayout, List.append_assoc]
  have k1 := readBigUInt64LE_exact disc
    (writeU64LE r.price ++ (writeU32LE r.metadataUri.length ++ r.metadataUri))
    8 r.id hd.symm h1
  have k2 := readBigUInt64LE_exact (disc ++ writeU64LE r.id)
    (writeU32LE r.metadataUri.length ++ r.metadataUri)
    16 r.price (by simp [hd]) h2
  have k3 := readUInt32LE_exact (disc ++ writeU64LE r.id ++ writeU64LE r.price)
    r.metadataUri 24 r.metadataUri.length (by simp [hd]) h3
  rw [List.append_assoc] at k2
  rw [List.append_assoc, List.append_assoc] at k3
  have k4 : bufSlice (disc ++ (writeU64LE r.id ++ (writeU64LE r.price ++
      (writeU32LE r.metadataUri.length ++ r.metadataUri)))) 28
      (28 + r.metadataUri.length) = r.metadataUri := by
    have := bufSlice_suffix
      (disc ++ (writeU64LE r.id ++ (writeU64LE r.price ++
        writeU32LE r.metadataUri.length))) r.metadataUri 28
      (28 + r.metadataUri.length) (by simp [hd]) (by simp [hd]; omega)
    simpa [List.append_assoc] using this
  simp only [decodeItem, hE, k1, k2, k3, k4]

theorem bufSlice_exact (pre mid post : Bytes) (start stop : Nat)
    (hs : start = pre.length) (hstop : stop = pre.length + mid.length) :
    bufSlice (pre ++ (mid ++ post)) start stop = mid := by
  subst hs hstop
  unfold bufSlice
  rw [← List.append_assoc,
    show pre.length + mid.length = (pre ++ mid).length by simp,
    List.take_append_of_le_length (le_refl _), List.take_length,
    List.drop_append_of_le_length (le_refl _), List.drop_length,
    List.nil_append]

theorem parsePurchases_encode (ps : List PurchaseRec) :
    ∀ pre off, off = pre.length → (∀ r ∈ ps, validPurchaseRec r) →
    parsePurchases (pre ++ (ps.map encodePurchaseRecord).flatten) off ps.length
      = some ps := by
  induction ps with
  | nil =>
    intro pre off hoff hv
    rfl
  | cons r ps ih =>
    intro pre off hoff hv
    obtain ⟨hr1, hr2, hr3⟩ := hv r (by simp)
    have hE : (((r :: ps).map encodePurchaseRecord).flatten : Bytes) =
        writeU64LE r.item_id ++ (writeI64LE r.timestamp ++
          (ps.map encodePurchaseRecord).flatten) := by
      simp [encodePurchaseRecord, List.append_assoc]
    have k1 := readBigUInt64LE_exact pre
      (writeI64LE r.timestamp ++ (ps.map encodePurchaseRecord).flatten)
      off r.item_id hoff hr1
    have hlen2 : off + 8 = (pre ++ writeU64LE r.item_id).length := by
      simp [hoff]
    have k2 := readBigInt64LE_exact (pre ++ writeU64LE r.item_id)
      ((ps.map encodePurchaseRecord).flatten) (off + 8) r.timestamp
      hlen2 hr2 hr3
    have hlen3 : off + 16 =
        (pre ++ writeU64LE r.item_id ++ writeI64LE r.timestamp).length := by
      simp [hoff]
    have k3 := ih (pre ++ writeU64LE r.item_id ++ writeI64LE r.timestamp)
      (off + 16) hlen3 (fun x hx => hv x (by simp [hx]))
    rw [List.append_assoc] at k2
    rw [List.append_assoc, List.append_assoc] at k3
    rw [hE, List.length_cons]
    simp only [parsePurchases, k1, k2, k3]

theorem decodePurchaseHistory_encode (disc : Bytes) (h : PurchaseHistoryRec)
    (hd : disc.length = 8) (hv : validHistory h) :
    decodePurchaseHistory (encodePurchaseHistoryLayout disc h) = some h := by
  obtain ⟨hu, hn, hv⟩ := hv
  have hE : encodePurchaseHistoryLayout disc h =
      disc ++ (h.user ++ (writeU32LE h.purchases.length ++
        (h.purchases.map encodePurchaseRecord).flatten)) := by
    simp [encodePurchaseHistoryLayout, List.append_assoc]
  have hslice : bufSlice (disc ++ (h.user ++ (writeU32LE h.purchases.length ++
      (h.purchases.map encodePurchaseRecord).flatten))) 8 40 = h.user :=
    bufSlice_exact disc h.user _ 8 40 hd.symm (by rw [hd, hu])
  have k1 : readPubkey (disc ++ (h.user ++ (writeU32LE h.purchases.length ++
      (h.purchases.map encodePurchaseRecord).flatten))) 8 = some h.user := by
    simp [readPubkey, hslice, hu]
  have k2 := readUInt32LE_exact (disc ++ h.user)
    ((h.purchases.map encodePurchaseRecord).flatten) 40 h.purchases.length
    (by simp [hd, hu]) hn
  have hlen3 : (44 : Nat) =
      (disc ++ h.user ++ writeU32LE h.purchases.length).length := by
    simp [hd, hu]
  have k3 := parsePurchases_encode h.purchases
    (disc ++ h.user ++ writeU32LE h.purchases.length) 44 hlen3 hv
  rw [List.append_assoc] at k2
  rw [List.append_assoc, List.append_assoc] at k3
  simp only [decodePurchaseHistory, hE, k1, k2, k3]

theorem readBigUInt64LE_eq_none_iff (data : Bytes) (off : Nat) :
    readBigUInt64LE data off = none ↔ data.length < off + 8 := by
  unfold readBigUInt64LE readBytes
  split <;> simp <;> omega

theorem readUInt32LE_eq_none_iff (data : Bytes) (off : Nat) :
    readUInt32LE data off = none ↔ data.length < off + 4 := by
  unfold readUInt32LE readBytes
  split <;> simp <;> omega

theorem readBigInt64LE_eq_none_iff (data : Bytes) (off : Nat) :
    readBigInt64LE data off = none ↔ data.length < off + 8 := by
  unfold readBigInt64LE
  rw [Option.map_eq_none']
  exact readBigUInt64LE_eq_none_iff data off

theorem decodeItem_eq_none_iff (data : Bytes) :
    decodeItem data = none ↔ data.length < 28 := by
  unfold decodeItem
  rcases h1 : readBigUInt64LE data 8 with _ | v1
  · rw [readBigUInt64LE_eq_none_iff] at h1
    simp
    omega
  · have n1 : ¬ data.length < 16 := by
      intro hlt
      rw [show (16:Nat) = 8 + 8 by rfl, ← readBigUInt64LE_eq_none_iff] at hlt
      simp [hlt] at h1
    rcases h2 : readBigUInt64LE data 16 with _ | v2
    · rw [readBigUInt64LE_eq_none_iff] at h2
      simp
      omega
    · have n2 : ¬ data.length < 24 := by
        intro hlt
        rw [show (24:Nat) = 16 + 8 by rfl, ← readBigUInt64LE_eq_none_iff] at hlt
        simp [hlt] at h2
      rcases h3 : readUInt32LE data 24 with _ | v3
      · rw [readUInt32LE_eq_none_iff] at h3
        simp
        omega
      · have n3 : ¬ data.length < 28 := by
          intro hlt
          rw [show (28:Nat) = 24 + 4 by rfl, ← readUInt32LE_eq_none_iff] at hlt
          simp [hlt] at h3
        simp [n3]

/-- The clamped length of a Buffer.slice window. -/
theorem bufSlice_length (data : Bytes) (start stop : Nat) :
    (bufSlice data start stop).length = min stop data.length - start := by
  simp [bufSlice]

theorem parsePurchases_length (data : Bytes) :
    ∀ n off l, parsePurchases data off n = some l → l.length = n := by
  intro n
  induction n with
  | zero =>
    intro off l h
    simp [parsePurchases] at h
    simp [← h]
  | succ n ih =>
    intro off l h
    unfold parsePurchases at h
    rcases h1 : readBigUInt64LE data off with _ | v1 <;> rw [h1] at h
    · exact absurd h (by simp)
    rcases h2 : readBigInt64LE data (off + 8) with _ | v2 <;> rw [h2] at h
    · exact absurd h (by simp)
    rcases h3 : parsePurchases data (off + 16) n with _ | rest <;> rw [h3] at h
    · exact absurd h (by simp)
    have := ih (off + 16) rest h3
    simp at h
    simp [← h, this]

theorem parsePurchases_bound (data : Bytes) :
    ∀ n off l, parsePurchases data off (n + 1) = some l →
    off + 16 * (n + 1) ≤ data.length := by
  intro n
  induction n with
  | zero =>
    intro off l h
    unfold parsePurchases at h
    rcases h1 : readBigUInt64LE data off with _ | v1 <;> rw [h1] at h
    · exact absurd h (by simp)
    rcases h2 : readBigInt64LE data (off + 8) with _ | v2 <;> rw [h2] at h
    · exact absurd h (by simp)
    have : ¬ data.length < off + 8 + 8 := by
      intro hlt
      rw [← readBigInt64LE_eq_none_iff] at hlt
      simp [hlt] at h2
    omega
  | succ n ih =>
    intro off l h
    unfold parsePurchases at h
    rcases h1 : readBigUInt64LE data off with _ | v1 <;> rw [h1] at h
    · exact absurd h (by simp)
    rcases h2 : readBigInt64LE data (off + 8) with _ | v2 <;> rw [h2] at h
    · exact absurd h (by simp)
    rcases h3 : parsePurchases data (off + 16) (n + 1) with _ | rest <;>
      rw [h3] at h
    · exact absurd h (by simp)
    have := ih (off + 16) rest h3
    omega

theorem readUInt32LE_some_bound (data : Bytes) (off v : Nat)
    (h : readUInt32LE data off = some v) : off + 4 ≤ data.length := by
  by_contra hc
  rw [show ¬ off + 4 ≤ data.length ↔ data.length < off + 4 from by omega,
    ← readUInt32LE_eq_none_iff] at hc
  simp [hc] at h

theorem decodePurchaseHistory_truncated (data : Bytes) (len : Nat)
    (hlen : readUInt32LE data 40 = some len)
    (hshort : data.length < 44 + 16 * len) :
    decodePurchaseHistory data = none := by
  rcases h3 : parsePurchases data 44 len with _ | l
  · unfold decodePurchaseHistory
    rcases h1 : readPubkey data 8 with _ | u
    · rfl
    · simp [hlen, h3]
  · exfalso
    have h44 : 44 ≤ data.length := readUInt32LE_some_bound data 40 len hlen
    rcases len with _ | m
    · omega
    · have := parsePurchases_bound data m 44 l h3
      omega

/-- C1: for every purchase attempt whose shop, item and balance reads pass,
the workflow probes bare existence of the history account and the emitted
8-byte instruction data is exactly the first_purchase discriminator when no
history account exists and the subsequent_purchase discriminator when one
does, so the tag is a function of the existence bit alone. -/
theorem purchase_opcode_selected_by_history_existence
    (programId buyer shopPDA itemPDA historyPDA : Bytes) (env : ChainEnv)
    (s d : Bytes) (p : Nat)
    (hs : env.shopAccount = some s) (hadm : (bufSlice s 8 40).length = 32)
    (hi : env.itemAccount = some d) (hp : readBigUInt64LE d 16 = some p)
    (hb : p ≤ env.buyerBalance) :
    handlePurchase programId buyer shopPDA itemPDA historyPDA env =
      .ok ⟨[setComputeUnitLimit 1000000,
        ⟨purchaseKeys buyer shopPDA itemPDA (bufSlice s 8 40) historyPDA,
          programId,
          if env.historyAccount.isSome then subsequentPurchaseDisc
          else firstPurchaseDisc⟩]⟩ ∧
    firstPurchaseDisc.length = 8 ∧ subsequentPurchaseDisc.length = 8 := by
  refine ⟨?_, by decide, by decide⟩
  unfold handlePurchase
  rw [hs]
  simp [hadm, hi, hp, Nat.not_lt.mpr hb]

/-- C1 witness: a buyer with no history account gets the first_purchase
discriminator on a concrete environment. -/
theorem purchase_opcode_selected_witness :
    handlePurchase [] [] [] [] []
      ⟨some (List.replicate 40 0), some (List.replicate 24 0), none, 0⟩ =
      .ok ⟨[setComputeUnitLimit 1000000,
        ⟨purchaseKeys [] [] [] (bufSlice (List.replicate 40 0) 8 40) [],
          [],
          if (ChainEnv.mk (some (List.replicate 40 0))
              (some (List.replicate 24 0)) none 0).historyAccount.isSome
          then subsequentPurchaseDisc else firstPurchaseDisc⟩]⟩ ∧
    firstPurchaseDisc.length = 8 ∧ subsequentPurchaseDisc.length = 8 :=
  purchase_opcode_selected_by_history_existence [] [] [] [] []
    ⟨some (List.replicate 40 0), some (List.replicate 24 0), none, 0⟩
    (List.replicate 40 0) (List.replicate 24 0) 0
    rfl (by decide) rfl (by decide) (by decide)

/-- C5: with the item account present and decodable, a buyer whose lamport
balance equals the price exactly proceeds to an assembled transaction,
while a balance strictly below the price aborts with the insufficient
funds error, the lamport comparison deciding it; the error constructor
carries no transaction, so nothing is built, signed or submitted. -/
theorem balance_gate
    (programId buyer shopPDA itemPDA historyPDA : Bytes) (env : ChainEnv)
    (s d : Bytes) (p : Nat)
    (hs : env.shopAccount = some s) (hadm : (bufSlice s 8 40).length = 32)
    (hi : env.itemAccount = some d) (hp : readBigUInt64LE d 16 = some p) :
    (env.buyerBalance = p →
      ∃ tx, handlePurchase programId buyer shopPDA itemPDA historyPDA env =
        .ok tx) ∧
    (env.buyerBalance < p →
      handlePurchase programId buyer shopPDA itemPDA historyPDA env =
        .error (.insufficientFunds p env.buyerBalance)) := by
  constructor
  · intro he
    refine ⟨⟨[setComputeUnitLimit 1000000,
      ⟨purchaseKeys buyer shopPDA itemPDA (bufSlice s 8 40) historyPDA,
        programId,
        if env.historyAccount.isSome then subsequentPurchaseDisc
        else firstPurchaseDisc⟩]⟩, ?_⟩
    unfold handlePurchase
    rw [hs]
    simp [hadm, hi, hp, he]
  · intro hlt
    unfold handlePurchase
    rw [hs]
    simp [hadm, hi, hp, hlt]

/-- C5 witness: a buyer one lamport short of a 5-lamport item fails with
the insufficient funds error, and a buyer with exactly 5 lamports gets an
assembled transaction. -/
theorem balance_gate_witness :
    (handlePurchase [] [] [] [] []
      ⟨some (List.replicate 40 0),
        some (List.replicate 16 0 ++ writeU64LE 5), none, 4⟩ =
      .error (.insufficientFunds 5 4)) ∧
    (∃ tx, handlePurchase [] [] [] [] []
      ⟨some (List.replicate 40 0),
        some (List.replicate 16 0 ++ writeU64LE 5), none, 5⟩ = .ok tx) :=
  ⟨(balance_gate [] [] [] [] []
      ⟨some (List.replicate 40 0),
        some (List.replicate 16 0 ++ writeU64LE 5), none, 4⟩
      (List.replicate 40 0) (List.replicate 16 0 ++ writeU64LE 5) 5
      rfl (by decide) rfl (by decide)).2 (by decide),
   (balance_gate [] [] [] [] []
      ⟨some (List.replicate 40 0),
        some (List.replicate 16 0 ++ writeU64LE 5), none, 5⟩
      (List.replicate 40 0) (List.replicate 16 0 ++ writeU64LE 5) 5
      rfl (by decide) rfl (by decide)).1 rfl⟩

/-- C6: every assembled purchase instruction, for either opcode, references
exactly buyer(signer, writable), shop(readonly), item(readonly),
admin(writable), history(writable), system(readonly), in that order, the
admin key being bytes 8 to 40 of the shop account. -/
theorem purchase_instruction_account_order
    (programId buyer shopPDA itemPDA historyPDA : Bytes) (env : ChainEnv)
    (s d : Bytes) (p : Nat)
    (hs : env.shopAccount = some s) (hadm : (bufSlice s 8 40).length = 32)
    (hi : env.itemAccount = some d) (hp : readBigUInt64LE d 16 = some p)
    (hb : p ≤ env.buyerBalance) :
    ∃ ix : Instruction,
      handlePurchase programId buyer shopPDA itemPDA historyPDA env =
        .ok ⟨[setComputeUnitLimit 1000000, ix]⟩ ∧
      ix.keys =
        [⟨buyer, true, true⟩, ⟨shopPDA, false, false⟩,
         ⟨itemPDA, false, false⟩, ⟨bufSlice s 8 40, false, true⟩,
         ⟨historyPDA, false, true⟩, ⟨systemProgramId, false, false⟩] := by
  refine ⟨⟨purchaseKeys buyer shopPDA itemPDA (bufSlice s 8 40) historyPDA,
    programId,
    if env.historyAccount.isSome then subsequentPurchaseDisc
    else firstPurchaseDisc⟩, ?_, rfl⟩
  unfold handlePurchase
  rw [hs]
  simp [hadm, hi, hp, Nat.not_lt.mpr hb]

/-- C6 witness: the account list on a concrete environment. -/
theorem purchase_instruction_account_order_witness :
    ∃ ix : Instruction,
      handlePurchase [] [] [] [] []
        ⟨some (List.replicate 40 0), some (List.replicate 24 0), none, 0⟩ =
        .ok ⟨[setComputeUnitLimit 1000000, ix]⟩ ∧
      ix.keys =
        [⟨[], true, true⟩, ⟨[], false, false⟩, ⟨[], false, false⟩,
         ⟨bufSlice (List.replicate 40 0) 8 40, false, true⟩,
         ⟨[], false, true⟩, ⟨systemProgramId, false, false⟩] :=
  purchase_instruction_account_order [] [] [] [] []
    ⟨some (List.replicate 40 0), some (List.replicate 24 0), none, 0⟩
    (List.replicate 40 0) (List.replicate 24 0) 0
    rfl (by decide) rfl (by decide) (by decide)

/-- C7: every transaction the purchase handler assembles, and every
transaction the add-item script assembles, lists the compute-budget
instruction first and the main program instruction after it. -/
theorem compute_budget_precedes_main_instruction :
    (∀ (programId buyer shopPDA itemPDA historyPDA : Bytes) (env : ChainEnv)
      (tx : Transaction),
      handlePurchase programId buyer shopPDA itemPDA historyPDA env = .ok tx →
      ∃ main, tx.instructions = [setComputeUnitLimit 1000000, main] ∧
        main.programId = programId ∧
        (setComputeUnitLimit 1000000).programId = computeBudgetProgramId) ∧
    (∀ (programId adminPk shopPDA itemPDA : Bytes) (id price : Nat)
      (uri : Bytes),
      ∃ main, (addItemTransaction programId adminPk shopPDA itemPDA
          id price uri).instructions =
        [setComputeUnitLimit 1000000, main] ∧ main.programId = programId ∧
        (setComputeUnitLimit 1000000).programId = computeBudgetProgramId) := by
  constructor
  · intro programId buyer shopPDA itemPDA historyPDA env tx h
    unfold handlePurchase at h
    split at h
    · exact absurd h (by simp)
    · split at h
      · split at h
        · exact absurd h (by simp)
        · split at h
          · exact absurd h (by simp)
          · split at h
            · exact absurd h (by simp)
            · rw [← Except.ok.inj h]
              exact ⟨_, rfl, rfl, rfl⟩
      · exact absurd h (by simp)
  · intro programId adminPk shopPDA itemPDA id price uri
    exact ⟨_, rfl, rfl, rfl⟩

/-- C7 witness: both transaction shapes on concrete inputs. -/
theorem compute_budget_precedes_main_witness :
    (∃ main, (Transaction.mk [setComputeUnitLimit 1000000,
        ⟨purchaseKeys [] [] [] (bufSlice (List.replicate 40 0) 8 40) [],
          [], firstPurchaseDisc⟩]).instructions =
      [setComputeUnitLimit 1000000, main] ∧ main.programId = [] ∧
      (setComputeUnitLimit 1000000).programId = computeBudgetProgramId) ∧
    (∃ main, (addItemTransaction [7] [1] [2] [3] 1 5 [97]).instructions =
      [setComputeUnitLimit 1000000, main] ∧ main.programId = [7] ∧
      (setComputeUnitLimit 1000000).programId = computeBudgetProgramId) :=
  ⟨compute_budget_precedes_main_instruction.1 [] [] [] [] []
      ⟨some (List.replicate 40 0), some (List.replicate 24 0), none, 0⟩
      ⟨[setComputeUnitLimit 1000000,
        ⟨purchaseKeys [] [] [] (bufSlice (List.replicate 40 0) 8 40) [],
          [], firstPurchaseDisc⟩]⟩ rfl,
   compute_budget_precedes_main_instruction.2 [7] [1] [2] [3] 1 5 [97]⟩

theorem decodeItem_some_uri_bound (data : Bytes) (d : DecodedItem)
    (h : decodeItem data = some d) :
    d.metadataUri.length + 28 ≤ data.length := by
  unfold decodeItem at h
  rcases h1 : readBigUInt64LE data 8 with _ | v1
  · simp [h1] at h
  simp only [h1] at h
  rcases h2 : readBigUInt64LE data 16 with _ | v2
  · simp [h2] at h
  simp only [h2] at h
  rcases h3 : readUInt32LE data 24 with _ | v3
  · simp [h3] at h
  simp only [h3] at h
  have h24 : ¬ data.length < 24 + 4 := by
    intro hlt
    rw [← readUInt32LE_eq_none_iff] at hlt
    simp [hlt] at h3
  rw [← Option.some.inj h]
  show (bufSlice data 28 (28 + v3)).length + 28 ≤ data.length
  rw [bufSlice_length]
  omega

theorem decodePurchaseHistory_some_bound (data : Bytes)
    (h : PurchaseHistoryRec) (hdec : decodePurchaseHistory data = some h) :
    44 + 16 * h.purchases.length ≤ data.length := by
  unfold decodePurchaseHistory at hdec
  rcases h1 : readPubkey data 8 with _ | u
  · simp [h1] at hdec
  simp only [h1] at hdec
  rcases h2 : readUInt32LE data 40 with _ | len
  · simp [h2] at hdec
  simp only [h2] at hdec
  rcases h3 : parsePurchases data 44 len with _ | ps
  · simp [h3] at hdec
  simp only [h3] at hdec
  have hlen := parsePurchases_length data len 44 ps h3
  have h44 := readUInt32LE_some_bound data 40 len h2
  have hps : h.purchases = ps := by
    rw [← Option.some.inj hdec]
  rcases len with _ | m
  · rw [hps, hlen]
    omega
  · have := parsePurchases_bound data m 44 ps h3
    rw [hps, hlen]
    omega

/-- C2 amended: decoding never reads past the buffer — an item buffer
shorter than its 28 fixed bytes fails to decode, a history buffer whose
record count declares more 16-byte records than remain fails to decode,
and every successful decode stayed within the buffer — but an item buffer
whose declared metadata length exceeds the remaining bytes does not fail:
the metadata is silently clamped to the bytes that remain. -/
theorem decode_truncation_behaviour :
    (∀ data : Bytes, decodeItem data = none ↔ data.length < 28) ∧
    (∀ (data : Bytes) (d : DecodedItem), decodeItem data = some d →
      d.metadataUri.length + 28 ≤ data.length) ∧
    (∀ (data : Bytes) (len : Nat), readUInt32LE data 40 = some len →
      data.length < 44 + 16 * len → decodePurchaseHistory data = none) ∧
    (∀ (data : Bytes) (h : PurchaseHistoryRec),
      decodePurchaseHistory data = some h →
      44 + 16 * h.purchases.length ≤ data.length) :=
  ⟨decodeItem_eq_none_iff, decodeItem_some_uri_bound,
   decodePurchaseHistory_truncated, decodePurchaseHistory_some_bound⟩

/-- C2 counterexample: an item buffer declaring a 100-byte metadata string
with only two bytes remaining does not fail with a truncation error — it
decodes successfully to a record whose metadata was clamped to the two
remaining bytes. -/
theorem item_overdeclared_uri_decodes_clamped :
    decodeItem (addItemDisc ++ writeU64LE 1 ++ writeU64LE 5 ++
        writeU32LE 100 ++ [97, 98]) =
      some ⟨1, (5 : ℚ) / 1000000000, [97, 98]⟩ ∧
    readUInt32LE (addItemDisc ++ writeU64LE 1 ++ writeU64LE 5 ++
        writeU32LE 100 ++ [97, 98]) 24 = some 100 ∧
    (addItemDisc ++ writeU64LE 1 ++ writeU64LE 5 ++ writeU32LE 100 ++
        [97, 98]).length = 30 := by
  refine ⟨?_, by decide, by decide⟩
  have h1 : readBigUInt64LE (addItemDisc ++ writeU64LE 1 ++ writeU64LE 5 ++
      writeU32LE 100 ++ [97, 98]) 8 = some 1 := by decide
  have h2 : readBigUInt64LE (addItemDisc ++ writeU64LE 1 ++ writeU64LE 5 ++
      writeU32LE 100 ++ [97, 98]) 16 = some 5 := by decide
  have h3 : readUInt32LE (addItemDisc ++ writeU64LE 1 ++ writeU64LE 5 ++
      writeU32LE 100 ++ [97, 98]) 24 = some 100 := by decide
  have h4 : bufSlice (addItemDisc ++ writeU64LE 1 ++ writeU64LE 5 ++
      writeU32LE 100 ++ [97, 98]) 28 (28 + 100) = [97, 98] := by decide
  simp only [decodeItem, h1, h2, h3, h4]
  norm_num

/-- C2 witness: a history buffer declaring two records with none present
fails to decode, and the item truncation criterion applied concretely. -/
theorem decode_truncation_witness :
    decodePurchaseHistory (List.replicate 40 0 ++ writeU32LE 2) = none ∧
    (decodeItem [0, 1, 2] = none ↔ ([0, 1, 2] : Bytes).length < 28) :=
  ⟨decode_truncation_behaviour.2.2.1 (List.replicate 40 0 ++ writeU32LE 2) 2
    (by decide) (by decide),
   decode_truncation_behaviour.1 [0, 1, 2]⟩

/-- C3 counterexample: the decode of an encoded item does not return the
record unchanged — the price field comes back divided by 1e9 (5 lamports
decode as the rational 5 / 1e9, not 5). -/
theorem decode_encode_item_price_scaled :
    decodeItem (encodeItemLayout addItemDisc ⟨1, 5, [97]⟩) =
      some ⟨1, (5 : ℚ) / 1000000000, [97]⟩ ∧
    ¬ decodeItem (encodeItemLayout addItemDisc ⟨1, 5, [97]⟩) =
      some ⟨1, (5 : ℚ), [97]⟩ := by
  have hval : decodeItem (encodeItemLayout addItemDisc ⟨1, 5, [97]⟩) =
      some ⟨1, (5 : ℚ) / 1000000000, [97]⟩ :=
    decodeItem_encodeItemLayout addItemDisc ⟨1, 5, [97]⟩ (by decide)
      ⟨by decide, by decide, by decide⟩
  refine ⟨hval, ?_⟩
  rw [hval]
  intro hcontra
  have hpr : ((5 : ℚ) / 1000000000) = 5 :=
    congrArg DecodedItem.price (Option.some.inj hcontra)
  norm_num at hpr

/-- C3 amended: for every valid Item record, id and metadata bytes
round-trip exactly through encode then decode while the decoded price is
the encoded lamport price divided by 1e9; the PurchaseHistory layout
round-trips exactly (its encoder is modelled from the spec, the repository
only ever decoding that account type). -/
theorem decode_encode_roundtrip_amended :
    (∀ (disc : Bytes) (r : ItemRecord), disc.length = 8 → validItem r →
      decodeItem (encodeItemLayout disc r) =
        some ⟨r.id, (r.price : ℚ) / 1000000000, r.metadataUri⟩) ∧
    (∀ (disc : Bytes) (h : PurchaseHistoryRec), disc.length = 8 →
      validHistory h →
      decodePurchaseHistory (encodePurchaseHistoryLayout disc h) = some h) :=
  ⟨decodeItem_encodeItemLayout, decodePurchaseHistory_encode⟩

/-- C3 witness: the two round-trips on concrete records. -/
theorem decode_encode_roundtrip_witness :
    decodeItem (encodeItemLayout addItemDisc ⟨2, 7, [104, 105]⟩) =
      some ⟨2, (7 : ℚ) / 1000000000, [104, 105]⟩ ∧
    decodePurchaseHistory (encodePurchaseHistoryLayout (List.replicate 8 1)
        ⟨List.replicate 32 7, [⟨3, 100⟩]⟩) =
      some ⟨List.replicate 32 7, [⟨3, 100⟩]⟩ :=
  ⟨decode_encode_roundtrip_amended.1 addItemDisc ⟨2, 7, [104, 105]⟩
      (by decide) ⟨by decide, by decide, by decide⟩,
   decode_encode_roundtrip_amended.2 (List.replicate 8 1)
      ⟨List.replicate 32 7, [⟨3, 100⟩]⟩ (by decide)
      ⟨by decide, by decide,
       fun r hr => by
        simp at hr
        subst hr
        exact ⟨by decide, by decide, by decide⟩⟩⟩

/-- C4: at this concrete truncated history buffer the account parse fails,
yet checkPurchaseHistory does not surface a typed decode error — it stores
the fabricated placeholder record (item 1, current time) in place of the
undecodable data. -/
theorem history_decode_failure_substitutes_placeholder :
    decodePurchaseHistory (List.replicate 40 0 ++ writeU32LE 1) = none ∧
    checkPurchaseHistory 1234 (List.replicate 32 0)
        (some (List.replicate 40 0 ++ writeU32LE 1)) =
      [⟨1, 1234⟩] := by
  constructor
  · decide
  · decide

theorem findNetwork_append_some (f : String → Option String) (l : String)
    (a b : List NetworkConfig) (c : NetworkConfig)
    (h : findNetwork f l a = some c) : findNetwork f l (a ++ b) = some c := by
  induction a with
  | nil => exact absurd h (by simp [findNetwork])
  | cons x rest ih =>
    rw [List.cons_append]
    unfold findNetwork at h ⊢
    by_cases hx : f x.endpoint = some l
    · simpa [hx] using h
    · rw [if_neg hx] at h
      rw [if_neg hx]
      exact ih h

theorem findNetwork_append_none (f : String → Option String) (l : String)
    (a b : List NetworkConfig) (h : findNetwork f l a = none) :
    findNetwork f l (a ++ b) = findNetwork f l b := by
  induction a with
  | nil => rfl
  | cons x rest ih =>
    rw [List.cons_append]
    unfold findNetwork at h
    rw [show findNetwork f l (x :: (rest ++ b)) =
      if f x.endpoint = some l then some x
      else findNetwork f l (rest ++ b) from rfl]
    by_cases hx : f x.endpoint = some l
    · simp [hx] at h
    · rw [if_neg hx] at h
      rw [if_neg hx]
      exact ih h

theorem findNetwork_mem (f : String → Option String) (l : String) :
    ∀ (cat : List NetworkConfig) (c : NetworkConfig),
    findNetwork f l cat = some c → c ∈ cat := by
  intro cat
  induction cat with
  | nil =>
    intro c h
    exact absurd h (by simp [findNetwork])
  | cons x rest ih =>
    intro c h
    unfold findNetwork at h
    by_cases hx : f x.endpoint = some l
    · rw [if_pos hx] at h
      simp [← Option.some.inj h]
    · rw [if_neg hx] at h
      exact List.mem_cons_of_mem x (ih c h)

theorem findNetwork_of_exists (f : String → Option String) (l : String) :
    ∀ cat : List NetworkConfig,
    (∃ c ∈ cat, f c.endpoint = some l) → findNetwork f l cat ≠ none := by
  intro cat
  induction cat with
  | nil =>
    intro hex
    simp at hex
  | cons x rest ih =>
    intro hex
    unfold findNetwork
    by_cases hx : f x.endpoint = some l
    · simp [hx]
    · rw [if_neg hx]
      rcases hex with ⟨c, hc, hfc⟩
      rcases List.mem_cons.mp hc with hce | hcr
      · exact absurd (hce ▸ hfc) hx
      · exact ih ⟨c, hcr, hfc⟩

/-- C8: when the live genesis fingerprint differs from the configured
target's, the verifier walks the catalog (Sonic group first, then the
plain Solana group) and reports the name of the first entry whose
fingerprint matches; the name "Unknown Network" is reported exactly when
no catalog entry matches, and no catalog entry carries that name. -/
theorem network_mismatch_identifies_catalog_entry
    (fetchHash : String → Option String) (liveHash expected : String)
    (hexp : fetchHash CURRENT_NETWORK.endpoint = some expected)
    (hne : liveHash ≠ expected) :
    (∀ c, findNetwork fetchHash liveHash
        (SONIC_NETWORKS ++ SOLANA_NETWORKS_CONFIG) = some c →
      checkNetwork fetchHash liveHash = .mismatch c.name ∧
      c.name ≠ "Unknown Network") ∧
    ((∃ c ∈ SONIC_NETWORKS ++ SOLANA_NETWORKS_CONFIG,
        fetchHash c.endpoint = some liveHash) →
      checkNetwork fetchHash liveHash ≠ .mismatch "Unknown Network") ∧
    (findNetwork fetchHash liveHash
        (SONIC_NETWORKS ++ SOLANA_NETWORKS_CONFIG) = none →
      checkNetwork fetchHash liveHash = .mismatch "Unknown Network") := by
  have hnames : ∀ c ∈ SONIC_NETWORKS ++ SOLANA_NETWORKS_CONFIG,
      c.name ≠ "Unknown Network" := by decide
  have hck : checkNetwork fetchHash liveHash =
      (match findNetwork fetchHash liveHash SONIC_NETWORKS with
       | some c => .mismatch c.name
       | none =>
         match findNetwork fetchHash liveHash SOLANA_NETWORKS_CONFIG with
         | some c => .mismatch c.name
         | none => .mismatch "Unknown Network") := by
    unfold checkNetwork
    rw [hexp]
    simp [hne]
  have main : ∀ c, findNetwork fetchHash liveHash
      (SONIC_NETWORKS ++ SOLANA_NETWORKS_CONFIG) = some c →
      checkNetwork fetchHash liveHash = .mismatch c.name := by
    intro c hc
    rcases hs : findNetwork fetchHash liveHash SONIC_NETWORKS with _ | c1
    · rw [findNetwork_append_none fetchHash liveHash _ _ hs] at hc
      rw [hck]
      simp only [hs, hc]
    · have hall := findNetwork_append_some fetchHash liveHash
        SONIC_NETWORKS SOLANA_NETWORKS_CONFIG c1 hs
      rw [hall] at hc
      have hceq : c1 = c := Option.some.inj hc
      rw [hck]
      simp only [hs, hceq]
  refine ⟨fun c hc => ⟨main c hc, hnames c (findNetwork_mem _ _ _ c hc)⟩,
    ?_, ?_⟩
  · intro hex heq
    rcases hfn : findNetwork fetchHash liveHash
        (SONIC_NETWORKS ++ SOLANA_NETWORKS_CONFIG) with _ | c
    · exact findNetwork_of_exists fetchHash liveHash _ hex hfn
    · have h1 := main c hfn
      rw [heq] at h1
      exact hnames c (findNetwork_mem _ _ _ c hfn)
        (NetworkCheckResult.mismatch.inj h1).symm
  · intro hn
    rcases hs : findNetwork fetchHash liveHash SONIC_NETWORKS with _ | c1
    · rw [findNetwork_append_none fetchHash liveHash _ _ hs] at hn
      rw [hck]
      simp only [hs, hn]
    · have hall := findNetwork_append_some fetchHash liveHash
        SONIC_NETWORKS SOLANA_NETWORKS_CONFIG c1 hs
      rw [hall] at hn
      exact absurd hn (by simp)

/-- C8 witness: a live fingerprint matching the Sonic mainnet catalog
entry, while the configured target reports a different fingerprint, is
identified as Sonic Mainnet Beta. -/
theorem network_mismatch_witness :
    checkNetwork
      (fun e => if e = "https://api.testnet.sonic.game" then some "T"
        else if e = "https://api.mainnet-alpha.sonic.game" then some "M"
        else none) "M" = .mismatch "Sonic Mainnet Beta" ∧
    "Sonic Mainnet Beta" ≠ "Unknown Network" :=
  (network_mismatch_identifies_catalog_entry
    (fun e => if e = "https://api.testnet.sonic.game" then some "T"
      else if e = "https://api.mainnet-alpha.sonic.game" then some "M"
      else none) "M" "T" (by decide) (by decide)).1
    ⟨"Sonic Mainnet Beta", "https://api.mainnet-alpha.sonic.game"⟩ (by decide)

/-- C9: program-derived address computation is a pure deterministic
function — for any hash and curve oracle, two calls on equal seed lists
and equal program ids return the identical (address, bump) pair — and the
shop, item and history helpers are exactly the derivations from the seed
sets ["shop"], ["item", id as 8 LE bytes] and ["history", buyer bytes],
functions of those inputs alone. -/
theorem deriveAddress_deterministic :
    (∀ (sha256 : Bytes → Bytes) (isOnCurve : Bytes → Bool)
      (s1 s2 : List Bytes) (p1 p2 : Bytes), s1 = s2 → p1 = p2 →
      findProgramAddressSync sha256 isOnCurve s1 p1 =
        findProgramAddressSync sha256 isOnCurve s2 p2) ∧
    (∀ sha256 isOnCurve programId,
      getShopPDA sha256 isOnCurve programId =
        (findProgramAddressSync sha256 isOnCurve [shopSeed]
          programId).map Prod.fst) ∧
    (∀ sha256 isOnCurve programId id,
      getItemPDA sha256 isOnCurve programId id =
        (findProgramAddressSync sha256 isOnCurve [itemSeed, writeU64LE id]
          programId).map Prod.fst) ∧
    (∀ sha256 isOnCurve programId buyer,
      getHistoryPDA sha256 isOnCurve programId buyer =
        (findProgramAddressSync sha256 isOnCurve [historySeed, buyer]
          programId).map Prod.fst) :=
  ⟨fun _ _ _ _ _ _ hs hp => by rw [hs, hp],
   fun _ _ _ => rfl, fun _ _ _ _ => rfl, fun _ _ _ _ => rfl⟩

/-- C9 witness: the determinism equation applied at a concrete hash
oracle, curve oracle, seed list and program id. -/
theorem deriveAddress_deterministic_witness :
    findProgramAddressSync (fun _ => List.replicate 32 9) (fun _ => false)
        [[1]] [2] =
      findProgramAddressSync (fun _ => List.replicate 32 9) (fun _ => false)
        [[1]] [2] :=
  deriveAddress_deterministic.1 (fun _ => List.replicate 32 9)
    (fun _ => false) [[1]] [[1]] [2] [2] rfl rfl

theorem decodePurchaseHistory_user (data : Bytes) (h : PurchaseHistoryRec)
    (hdec : decodePurchaseHistory data = some h) :
    readPubkey data 8 = some h.user := by
  unfold decodePurchaseHistory at hdec
  rcases h1 : readPubkey data 8 with _ | u
  · simp [h1] at hdec
  simp only [h1] at hdec
  rcases h2 : readUInt32LE data 40 with _ | len
  · simp [h2] at hdec
  simp only [h2] at hdec
  rcases h3 : parsePurchases data 44 len with _ | ps
  · simp [h3] at hdec
  simp only [h3] at hdec
  exact congrArg (fun x => some x.user) (Option.some.inj hdec)

/-- C10: whenever a history account decodes successfully but its 32-byte
user field is not the connected buyer's identity, checkPurchaseHistory
discards the decoded records and stores the empty purchase list, so the
success path only ever exposes records of the connected buyer. -/
theorem foreign_history_reported_empty
    (data buyer : Bytes) (now : Int) (h : PurchaseHistoryRec)
    (hdec : decodePurchaseHistory data = some h) (hne : h.user ≠ buyer) :
    checkPurchaseHistory now buyer (some data) = [] := by
  have hpk := decodePurchaseHistory_user data h hdec
  unfold checkPurchaseHistory
  simp only [hpk]
  rw [if_neg hne]

/-- C10 witness: a decodable history owned by a different identity yields
the empty list for this buyer. -/
theorem foreign_history_reported_empty_witness :
    checkPurchaseHistory 0 (List.replicate 32 0)
      (some (List.replicate 8 0 ++ List.replicate 32 1 ++ writeU32LE 0)) =
      [] :=
  foreign_history_reported_empty
    (List.replicate 8 0 ++ List.replicate 32 1 ++ writeU32LE 0)
    (List.replicate 32 0) 0 ⟨List.replicate 32 1, []⟩ (by decide) (by decide)

end Automythic
